import Mathlib

/-!
Verification development for the Porcupine voice-assistant prototype
(`app.py`).  Text is modelled as `List Char` (the characters of a Python
`str`); the regex searches of `handle_command` are embedded as explicit
left-to-right scanners with Python `re.search` leftmost-match semantics;
external side effects (process launches, browser openings, file appends,
speech output, console prints, blocking sleeps) are reified as an ordered
list of `Effect` values; Python exceptions are modelled with `Except`.
The external clock, host platform and fallibility of the OS calls are
collected in a `World` record.
-/

namespace Porcupine

/-- Characters of a string literal, the `List Char` view used throughout. -/
def chars (s : String) : List Char := s.data

/-- ASCII model of the whitespace class used by Python `str.strip` and the
regex class `\s`: space, tab, newline, carriage return, vertical tab and
form feed. -/
def isSpaceChar (c : Char) : Bool :=
  (c == ' ') || (c == '\t') || (c == '\n') || (c == '\r') || (c == '\x0b') || (c == '\x0c')

/-- ASCII model of the regex word class `\w`: letters, digits and underscore.
Word boundaries `\b` of the source regexes are decided with this predicate. -/
def isWordChar (c : Char) : Bool :=
  c.isAlpha || c.isDigit || (c == '_')

/-- ASCII model of Python `str.lower` on a single character. -/
def toLowerCh (c : Char) : Char :=
  match c with
  | 'A' => 'a' | 'B' => 'b' | 'C' => 'c' | 'D' => 'd' | 'E' => 'e' | 'F' => 'f'
  | 'G' => 'g' | 'H' => 'h' | 'I' => 'i' | 'J' => 'j' | 'K' => 'k' | 'L' => 'l'
  | 'M' => 'm' | 'N' => 'n' | 'O' => 'o' | 'P' => 'p' | 'Q' => 'q' | 'R' => 'r'
  | 'S' => 's' | 'T' => 't' | 'U' => 'u' | 'V' => 'v' | 'W' => 'w' | 'X' => 'x'
  | 'Y' => 'y' | 'Z' => 'z'
  | other => other

/-- Model of Python `str.lower`. -/
def toLowerStr (s : List Char) : List Char := s.map toLowerCh

/-- Leading-whitespace removal, the first half of Python `str.strip`. -/
def stripStart (s : List Char) : List Char := s.dropWhile isSpaceChar

/-- Trailing-whitespace removal, the second half of Python `str.strip`. -/
def stripEnd (s : List Char) : List Char := (s.reverse.dropWhile isSpaceChar).reverse

/-- Model of Python `str.strip()`. -/
def stripWS (s : List Char) : List Char := stripEnd (stripStart s)

/-- Strip a literal pattern from the front of the text, returning the
remainder on success (regex literal matching). -/
def chopLit : List Char → List Char → Option (List Char)
  | [], s => some s
  | _, [] => none
  | a :: w, c :: s => if a = c then chopLit w s else none

/-- Drop every leading whitespace character (the greedy tail of `\s+`). -/
def dropSpaces (s : List Char) : List Char := s.dropWhile isSpaceChar

/-- Match `\s+`: require at least one whitespace character, consume the
whole run greedily and return the remainder. -/
def chopSpaces1 : List Char → Option (List Char)
  | [] => none
  | c :: rest => if isSpaceChar c then some (dropSpaces rest) else none

/-- Here-match of `w\b` for a literal word `w` whose last character is a
word character: `w` is a prefix of the text and the following character (if
any) is not a word character. -/
def startsWordThen : List Char → List Char → Bool
  | [], [] => true
  | [], c :: _ => !isWordChar c
  | _, [] => false
  | a :: w, c :: s => a == c && startsWordThen w s

/-- Whether the scan position admits a word boundary before a pattern that
begins with a word character: at the start of the text, or after a
non-word character. -/
def prevOkB : Option Char → Bool
  | none => true
  | some p => !isWordChar p

/-- Left-to-right scan with `re.search` leftmost semantics: try the
position-local matcher `f` at every position whose preceding character
admits a `\b`, returning the first hit. -/
def scanAux (f : List Char → Option α) : Option Char → List Char → Option α
  | _, [] => none
  | prev, c :: rest =>
    match (if prevOkB prev then f (c :: rest) else none) with
    | some x => some x
    | none => scanAux f (some c) rest

/-- Scan the whole text from its start. -/
def scanBoundary (f : List Char → Option α) (s : List Char) : Option α :=
  scanAux f none s

/-- Here-matcher wrapping `startsWordThen` into the scanner interface. -/
def wordHereOpt (w : List Char) (s : List Char) : Option Unit :=
  if startsWordThen w s then some () else none

/-- Model of `re.search(r"\bw\b", s)` viewed as a Boolean, for a literal
word `w` whose first and last characters are word characters. -/
def searchWordL (w : List Char) (s : List Char) : Bool :=
  (scanBoundary (wordHereOpt w) s).isSome

/-- Model of `re.search(r"\b(w1|w2|...)\b", s)` viewed as a Boolean:
an alternation of literal words matches somewhere iff one of them does. -/
def searchAny (ws : List (List Char)) (s : List Char) : Bool :=
  ws.any (fun w => searchWordL w s)

/-- Declarative characterisation of "the literal word `w` occurs in `s` as a
whole word": `s` splits around `w` with non-word characters (or the text
ends) on both sides.  Used to state claims independently of the scanner. -/
def OccursWord (w s : List Char) : Prop :=
  ∃ pre post, s = pre ++ w ++ post ∧
    (pre = [] ∨ ∃ c pre0, pre = pre0 ++ [c] ∧ isWordChar c = false) ∧
    (post = [] ∨ ∃ c post0, post = c :: post0 ∧ isWordChar c = false)

/-- Termination alternatives of rule 1, `\b(quit|exit|stop assistant|goodbye)\b`. -/
def terminationWords : List (List Char) :=
  [chars "quit", chars "exit", chars "stop assistant", chars "goodbye"]

/-- Help alternatives of rule 2, `\b(help|what can you do)\b`. -/
def helpWords : List (List Char) := [chars "help", chars "what can you do"]

/-- Date alternatives of rule 4, `\b(date|day)\b`. -/
def dateWords : List (List Char) := [chars "date", chars "day"]

/-- Allowlisted app alternation of rule 5, in regex order. -/
def appNames : List (List Char) :=
  [chars "chrome", chars "calculator", chars "notepad", chars "vscode"]

/-- Verb alternation of rule 5, in regex order. -/
def appVerbs : List (List Char) := [chars "open", chars "launch", chars "start"]

/-- Here-match of `(chrome|calculator|notepad|vscode)\b`, returning the
captured app name. -/
def appHere (s : List Char) : Option (List Char) :=
  appNames.findSome? fun a => if startsWordThen a s then some a else none

/-- Here-match of rule 5, `(open|launch|start)\s+(chrome|calculator|notepad|vscode)\b`,
returning the captured app name (group 2). -/
def openAppHere (s : List Char) : Option (List Char) :=
  appVerbs.findSome? fun v => (chopLit v s).bind fun r => (chopSpaces1 r).bind appHere

/-- Character class `[a-z0-9.\-]` of the domain subpattern of rule 6. -/
def isDomainChar (c : Char) : Bool :=
  (('a' ≤ c) && (c ≤ 'z')) || c.isDigit || (c == '.') || (c == '-')

/-- Character class `[a-z]` of the TLD subpattern of rule 6. -/
def isLowerAlpha (c : Char) : Bool := ('a' ≤ c) && (c ≤ 'z')

/-- Length of the longest prefix of `s` satisfying `p` (the extent a greedy
repetition of the class consumes). -/
def runLen (p : Char → Bool) (s : List Char) : Nat := (s.takeWhile p).length

/-- Word-boundary test `\b` between the last consumed character and the
remaining text: exactly one side is a word character (end of text counts
as non-word). -/
def boundaryOk (prev : Char) (rest : List Char) : Bool :=
  isWordChar prev != (match rest with | [] => false | c :: _ => isWordChar c)

/-- Backtracking for the optional path subpattern `/[\S]*\b` of rule 6:
shrink the greedily taken non-space run until the trailing `\b` holds.
`takenRev` is the reversed run still kept; returns the path (with its
leading slash) on success. -/
def pathShrink : List Char → List Char → Option (List Char)
  | [], rest => if boundaryOk '/' rest then some ['/'] else none
  | c :: tr, rest =>
    if boundaryOk c rest then some ('/' :: (c :: tr).reverse)
    else pathShrink tr (c :: rest)

/-- Match `[\S]*\b` after the literal slash of the optional path of rule 6,
greedily with backtracking. -/
def pathMatch (s : List Char) : Option (List Char) :=
  let n := runLen (fun c => !isSpaceChar c) s
  pathShrink (s.take n).reverse (s.drop n)

/-- Handle the text following the TLD letters of rule 6: an optional path
`(/[\S]*)?` (tried greedily first) and the final word boundary.  `last` is
the final TLD letter.  The boundary between a letter and a following slash
always holds, so when a slash is present and the path subpattern fails the
empty-path alternative still succeeds. -/
def afterTld (last : Char) (s : List Char) : Option (List Char) :=
  match s with
  | '/' :: s0 =>
    match pathMatch s0 with
    | some p => some p
    | none => if boundaryOk last s then some [] else none
  | _ => if boundaryOk last s then some [] else none

/-- Backtracking over the greedy TLD repetition `[a-z]{2,}` of rule 6:
try a TLD of `j` letters, descending, and combine with the optional path
and the final boundary.  `dom` is the already fixed `A+ .` part of the
captured domain; returns (domain, path). -/
def tldTry (dom : List Char) (s : List Char) : Nat → Option (List Char × List Char)
  | 0 => none
  | 1 => none
  | (j + 2) =>
    let letters := s.take (j + 2)
    match afterTld (letters.getLastD 'a') (s.drop (j + 2)) with
    | some p => some (dom ++ letters, p)
    | none => tldTry dom s (j + 1)

/-- Backtracking over the greedy run `[a-z0-9.\-]+` of rule 6: try a run of
`len` characters (descending), require a literal dot right after it, then a
TLD of at least two letters. -/
def dotTry (s : List Char) : Nat → Option (List Char × List Char)
  | 0 => none
  | (len + 1) =>
    match s.drop (len + 1) with
    | '.' :: after =>
      (match tldTry (s.take (len + 1) ++ ['.']) after (runLen isLowerAlpha after) with
       | some r => some r
       | none => dotTry s len)
    | _ => dotTry s len

/-- Here-match of the domain pattern `([a-z0-9.\-]+\.[a-z]{2,})(/[\S]*)?\b`
of rule 6, returning (captured domain, captured path or empty).  The
greedy class run is maximal, and the literal dot must sit strictly inside
it, so backtracking starts one short of the maximal run. -/
def domainHere (s : List Char) : Option (List Char × List Char) :=
  dotTry s (runLen isDomainChar s - 1)

/-- Here-match of rule 6, `open\s+(website\s+)?` followed by the domain
pattern: the optional `website` group is tried greedily first and dropped
on failure of the remainder. -/
def siteHere (s : List Char) : Option (List Char × List Char) :=
  (chopLit (chars "open") s).bind fun r0 =>
    (chopSpaces1 r0).bind fun r =>
      match (chopLit (chars "website") r).bind chopSpaces1 with
      | some r2 =>
        (match domainHere r2 with
         | some d => some d
         | none => domainHere r)
      | none => domainHere r

/-- Whether the remainder contains no newline (a bare `.` of the source
regexes cannot cross one). -/
def noNl (s : List Char) : Bool := !s.contains '\n'

/-- Capture of `(.+)$` on the text after a greedy `\s+`: the whole
remainder when it is newline-free and non-empty, or the remainder without
a single trailing newline (`$` also matches just before a final newline). -/
def capToEnd (body : List Char) : Option (List Char) :=
  if noNl body then (if body.isEmpty then none else some body)
  else if noNl body.dropLast && (body.getLast? == some '\n') && !body.dropLast.isEmpty then
    some body.dropLast
  else none

/-- Capture of `\s+(.+)$` after a keyword: require at least one whitespace
character, consume the run greedily, then capture the rest of the input. -/
def tailCapture (rest : List Char) : Option (List Char) :=
  (chopSpaces1 rest).bind capToEnd

/-- Here-match of rule 7, `search\s+(.+)$`, returning the captured query. -/
def searchKwHere (s : List Char) : Option (List Char) :=
  (chopLit (chars "search") s).bind tailCapture

/-- Remainder after the keyword alternation `(note|take\s+note)` of rule 8. -/
def noteKw (s : List Char) : Option (List Char) :=
  match chopLit (chars "note") s with
  | some r => some r
  | none =>
    (chopLit (chars "take") s).bind fun r =>
      (chopSpaces1 r).bind (chopLit (chars "note"))

/-- Here-match of rule 8, `(note|take\s+note)\s+(.+)$`, returning the
captured note text. -/
def noteHere (s : List Char) : Option (List Char) :=
  (noteKw s).bind tailCapture

/-- Unit alternation `(seconds|second|minutes|minute|hours|hour)` of rule 9,
in regex order. -/
def timerUnits : List (List Char) :=
  [chars "seconds", chars "second", chars "minutes", chars "minute",
   chars "hours", chars "hour"]

/-- Here-match of a unit word followed by `\b`. -/
def unitAt (s : List Char) : Option (List Char) :=
  timerUnits.findSome? fun u => if startsWordThen u s then some u else none

/-- Numeric value of a run of decimal digits, Python `int` on the capture. -/
def natOfDigits (ds : List Char) : Nat :=
  ds.foldl (fun a c => a * 10 + (c.toNat - 48)) 0

/-- Here-match of the clause `for\s+(\d+)\s*(seconds|...)?\b` of rule 9,
returning the number and the optional captured unit.  The digit run is
greedy-maximal; shorter digit runs never rescue a failed boundary because
the character after a shortened run is a digit.  When no unit follows, the
final `\b` holds exactly when the digit run is not glued to a further word
character. -/
def forClauseHere (s : List Char) : Option (Nat × Option (List Char)) :=
  (chopLit (chars "for") s).bind fun r0 =>
    match r0 with
    | [] => none
    | c :: rest =>
      if isSpaceChar c then
        let r2 := dropSpaces rest
        let d := runLen Char.isDigit r2
        if d = 0 then none
        else
          let n := natOfDigits (r2.take d)
          match r2.drop d with
          | [] => some (n, none)
          | c2 :: rest2 =>
            if isSpaceChar c2 then some (n, unitAt (dropSpaces rest2))
            else if isWordChar c2 then
              (match unitAt (c2 :: rest2) with
               | some u => some (n, some u)
               | none => none)
            else some (n, none)
      else none

/-- Last `for` clause (with a word boundary before it) in the text after
the matched `timer`, stopping at the first newline: the greedy `.*` of
rule 9 prefers the rightmost clause and cannot cross a newline. -/
def lastForClause : Option Char → List Char → Option (Nat × Option (List Char))
  | _, [] => none
  | prev, c :: rest =>
    if c = '\n' then none
    else
      match lastForClause (some c) rest with
      | some r => some r
      | none => if prevOkB prev then forClauseHere (c :: rest) else none

/-- Here-match of `timer\b`, returning the remainder after the word. -/
def timerHere (s : List Char) : Option (List Char) :=
  if startsWordThen (chars "timer") s then some (s.drop 5) else none

/-- Model of rule 9, `\b(timer)\b.*\bfor\s+(\d+)\s*(units)?\b`: leftmost
whole-word `timer`, then the rightmost `for` clause after it.  The
character preceding the clause scan is the final `r` of `timer`. -/
def timerSearch (low : List Char) : Option (Nat × Option (List Char)) :=
  (scanBoundary timerHere low).bind (lastForClause (some 'r'))

/-- Host OS family, the result of `platform_key()`. -/
inductive Plat
  | win
  | mac
  | linux
deriving DecidableEq, Repr

/-- Platform-specific launch targets of one allowlist entry. -/
structure AppTargets where
  win : List Char
  mac : List Char
  linux : List Char
deriving DecidableEq, Repr

/-- Launch target for the current platform, the `CFG.allowed_apps[key][p]`
lookup. -/
def AppTargets.pick (t : AppTargets) : Plat → List Char
  | Plat.win => t.win
  | Plat.mac => t.mac
  | Plat.linux => t.linux

/-- The static allowlist `CFG.allowed_apps`. -/
def allowedApps : List (List Char × AppTargets) :=
  [ (chars "chrome", ⟨chars "chrome", chars "Google Chrome", chars "google-chrome"⟩),
    (chars "calculator", ⟨chars "calc", chars "Calculator", chars "gnome-calculator"⟩),
    (chars "notepad", ⟨chars "notepad", chars "TextEdit", chars "gedit"⟩),
    (chars "vscode", ⟨chars "code", chars "Visual Studio Code", chars "code"⟩) ]

/-- Allowlist keys in declaration order, `CFG.allowed_apps.keys()`. -/
def allowedKeys : List (List Char) := allowedApps.map Prod.fst

/-- Dictionary lookup `app_key in CFG.allowed_apps` / `CFG.allowed_apps[app_key]`. -/
def lookupApp (k : List Char) : Option AppTargets :=
  allowedApps.findSome? fun e => if e.1 = k then some e.2 else none

/-- Modelled Python exceptions crossing function boundaries. -/
inductive PyExc
  | valueError (msg : List Char)
  | osError (msg : List Char)
deriving DecidableEq, Repr

/-- Text of an exception, Python `str(e)` as used in spoken error messages. -/
def errText : PyExc → List Char
  | PyExc.valueError m => m
  | PyExc.osError m => m

/-- Reified external side effects in execution order. -/
inductive Effect
  | speak (msg : List Char)
  | printLine (msg : List Char)
  | launch (argv : List (List Char)) (shell : Bool)
  | browse (url : List Char)
  | noteAppend (line : List Char)
  | sleepSecs (n : Nat)
  | transcribeCall (wavPath : Nat)
  | removeFile (wavPath : Nat)
deriving DecidableEq, Repr

/-- Environment facts and fallibility switches for one dispatch: the host
platform, whether the process launcher raises, whether appending to the
notes file raises, and the externally read clock strings (`datetime.now()`
formatted as the source formats it). -/
structure World where
  plat : Plat
  launchRaises : Bool
  noteWriteRaises : Bool
  timeStr : List Char
  dateStr : List Char
  nowStamp : List Char
  notesAbsPath : List Char
deriving DecidableEq, Repr

/-- Default world for concrete evaluations. -/
def defaultWorld : World :=
  ⟨Plat.win, false, false, chars "7:04 PM", chars "Sunday, October 12",
   chars "2026-10-12 19:04:00", chars "/home/user/porcupine_notes.txt"⟩

/-- Identifier of the router rule that produced an outcome. -/
inductive RuleId
  | terminate
  | help
  | time
  | date
  | openApp
  | openSite
  | webSearch
  | note
  | timer
  | unrecognized
deriving DecidableEq, Repr

/-- Outcome of one `handle_command` dispatch: the rule that fired, the
returned Boolean (`True` keeps the session loop going) and the side
effects in order. -/
structure CmdResult where
  rule : RuleId
  keepGoing : Bool
  effects : List Effect
deriving DecidableEq, Repr

/-- Model of `open_app`: lower- and strip-normalise the key, reject keys
outside the allowlist with a `ValueError` before any launch, then invoke
the platform-specific launcher (which may itself raise). -/
def violationMsg (k : List Char) : List Char :=
  '\x27' :: k ++ chars "\x27 not allowed. Allowed: chrome, calculator, notepad, vscode"

/-- Launch effect of `open_app` for one platform: `Popen([target], shell=True)`
on Windows, `Popen(["open", "-a", target])` on macOS, `Popen([target])`
otherwise. -/
def launchEffect (p : Plat) (target : List Char) : Effect :=
  match p with
  | Plat.win => Effect.launch [target] true
  | Plat.mac => Effect.launch [chars "open", chars "-a", target] false
  | Plat.linux => Effect.launch [target] false

/-- The body of `open_app`, with `app_key` already replaced by its
lower-cased, stripped form as the source reassigns it. -/
def openAppRun (w : World) (appKey : List Char) : Except PyExc (List Effect) :=
  match lookupApp (toLowerStr (stripWS appKey)) with
  | none => Except.error (PyExc.valueError (violationMsg (toLowerStr (stripWS appKey))))
  | some t =>
    if w.launchRaises then Except.error (PyExc.osError (chars "launch failed"))
    else Except.ok [launchEffect w.plat (t.pick w.plat)]

/-- Model of `open_website`: prepend `https://` unless the URL already
carries an `http://` or `https://` scheme (the `^https?://` check). -/
def openWebsiteRun (url : List Char) : Effect :=
  if (chars "http://").isPrefixOf url || (chars "https://").isPrefixOf url then
    Effect.browse url
  else Effect.browse (chars "https://" ++ url)

/-- Model of `web_search`: strip the query, replace spaces with plus signs
and open the Google search URL. -/
def webSearchRun (q : List Char) : Effect :=
  Effect.browse (chars "https://www.google.com/search?q=" ++
    (stripWS q).map (fun c => if c = ' ' then '+' else c))

/-- Model of `save_note`: raise on a file-write failure, otherwise append
one timestamped line and return the absolute notes path. -/
def saveNoteRun (w : World) (txt : List Char) : Except PyExc (List Effect × List Char) :=
  if w.noteWriteRaises then Except.error (PyExc.osError (chars "write failed"))
  else Except.ok ([Effect.noteAppend (w.nowStamp ++ chars " - " ++ txt ++ ['\n'])],
    w.notesAbsPath)

/-- Model of `parse_seconds`: minutes scale by 60, hours by 3600, anything
else (the seconds default) is returned unchanged. -/
def parseSeconds (n : Nat) (unit : List Char) : Nat :=
  let u := toLowerStr (if unit = [] then chars "seconds" else unit)
  if (chars "min").isPrefixOf u then n * 60
  else if (chars "hour").isPrefixOf u then n * 3600
  else n

/-- Spoken fallback of the router when no rule matches. -/
def fallbackMsg : List Char :=
  chars "I heard you, but that action isn\x27t installed yet. Say \x27help\x27."

/-- Spoken help message of rule 2. -/
def helpMsg : List Char :=
  chars "Try: open chrome, search something, note your text, timer for 10 seconds, or ask time."

/-- Console line of rule 2 listing the allowlist keys. -/
def allowedLine : List Char := chars "[allowed apps] chrome, calculator, notepad, vscode"

/-- Rules 9 and the fallback of `handle_command` (the tail of the cascade). -/
def rule9Onwards (low : List Char) : CmdResult :=
  match timerSearch low with
  | some (n, uOpt) =>
    let unit := uOpt.getD (chars "seconds")
    let secs := parseSeconds n unit
    ⟨RuleId.timer, true,
      [Effect.speak (chars "Timer set for " ++ (Nat.repr n).data ++ [' '] ++ unit ++ ['.']),
       Effect.sleepSecs secs,
       Effect.speak (chars "Time is up!")]⟩
  | none => ⟨RuleId.unrecognized, true, [Effect.speak fallbackMsg]⟩

/-- Rule 8 (note) and everything after it.  The note text is the stripped
capture; an empty stripped capture falls through to the next rule exactly
as the inner `if note_text:` of the source does.  `save_note` is not
wrapped in any handler, so its exception propagates. -/
def rule8Onwards (w : World) (low : List Char) : Except PyExc CmdResult :=
  match scanBoundary noteHere low with
  | some cap =>
    if stripWS cap = [] then Except.ok (rule9Onwards low)
    else
      match saveNoteRun w (stripWS cap) with
      | Except.error e => Except.error e
      | Except.ok (effs, path) =>
        Except.ok ⟨RuleId.note, true,
          effs ++ [Effect.speak (chars "Saved."),
                   Effect.printLine (chars "[notes] " ++ path)]⟩
  | none => Except.ok (rule9Onwards low)

/-- Rule 7 (search) and everything after it; an empty stripped query falls
through exactly as the inner `if q:` of the source does. -/
def rule7Onwards (w : World) (low : List Char) : Except PyExc CmdResult :=
  match scanBoundary searchKwHere low with
  | some cap =>
    if stripWS cap = [] then rule8Onwards w low
    else
      Except.ok ⟨RuleId.webSearch, true,
        [Effect.speak (chars "Searching for " ++ stripWS cap ++ ['.']),
         webSearchRun (stripWS cap)]⟩
  | none => rule8Onwards w low

/-- Rule 6 (website) and everything after it. -/
def rule6Onwards (w : World) (low : List Char) : Except PyExc CmdResult :=
  match scanBoundary siteHere low with
  | some (dom, path) =>
    Except.ok ⟨RuleId.openSite, true,
      [Effect.speak (chars "Opening " ++ dom ++ ['.']), openWebsiteRun (dom ++ path)]⟩
  | none => rule7Onwards w low

/-- Rule 5 (open app) and everything after it.  The `open_app` call is
wrapped in `try/except Exception`, so both the allowlist violation and a
launcher failure are converted into a spoken error message. -/
def rule5Onwards (w : World) (low : List Char) : Except PyExc CmdResult :=
  match scanBoundary openAppHere low with
  | some app =>
    (match openAppRun w app with
     | Except.ok effs =>
       Except.ok ⟨RuleId.openApp, true,
         effs ++ [Effect.speak (chars "Opening " ++ app ++ ['.'])]⟩
     | Except.error e =>
       Except.ok ⟨RuleId.openApp, true,
         [Effect.speak (chars "I couldn\x27t open " ++ app ++ chars ". " ++ errText e)]⟩)
  | none => rule6Onwards w low

/-- The full prioritized cascade of `handle_command` on the normalised
text `low`. -/
def handleLow (w : World) (low : List Char) : Except PyExc CmdResult :=
  if searchAny terminationWords low then
    Except.ok ⟨RuleId.terminate, false, [Effect.speak (chars "Goodbye.")]⟩
  else if searchAny helpWords low then
    Except.ok ⟨RuleId.help, true, [Effect.speak helpMsg, Effect.printLine allowedLine]⟩
  else if searchWordL (chars "time") low then
    Except.ok ⟨RuleId.time, true, [Effect.speak (chars "The time is " ++ w.timeStr)]⟩
  else if searchAny dateWords low then
    Except.ok ⟨RuleId.date, true, [Effect.speak (chars "Today is " ++ w.dateStr)]⟩
  else rule5Onwards w low

/-- Model of `handle_command`: strip then lower-case the raw text, then run
the rule cascade on the normalised text. -/
def handleCommand (w : World) (text : List Char) : Except PyExc CmdResult :=
  handleLow w (toLowerStr (stripWS text))

/-- Snapshot of one sounddevice device entry as `record_ptt` reads it:
`default_samplerate` is 0 when the field is absent or falsy
(`int(dev.get("default_samplerate") or 0)`). -/
structure AudioDevice where
  name : List Char
  defaultSamplerate : Nat
  maxInputChannels : Nat
deriving DecidableEq, Repr

/-- Outcome of one attempt of the `try` block of `record_ptt` at a fixed
(device, rate, channels) triple: the stream open fails, a read fails
mid-capture after a successful open, or the whole open-and-read succeeds. -/
inductive Attempt
  | openFail
  | readFail
  | ok
deriving DecidableEq, Repr

/-- Predicate picking a fully successful candidate. -/
def attemptOk (att : Nat → Nat → Nat → Attempt) (t : Nat × Nat × Nat) : Bool :=
  decide (att t.1 t.2.1 t.2.2 = Attempt.ok)

/-- Model of `_input_devices()`: enumerate and keep devices with at least
one input channel, with their original indices. -/
def inputDevices (devs : List AudioDevice) : List (Nat × AudioDevice) :=
  devs.enum.filter fun p => p.2.maxInputChannels > 0

/-- The fixed fallback ladder of `record_ptt`. -/
def fallbackLadder : List Nat := [44100, 48000, 32000, 24000, 22050, 16000]

/-- The `rates` list of `record_ptt`: the preferred rate first when it is
truthy (non-zero), then the fallback ladder. -/
def ratesList (preferredRate : Nat) : List Nat :=
  (if preferredRate ≠ 0 then [preferredRate] else []) ++ fallbackLadder

/-- Order-preserving de-duplication, the `seen` set comprehension of
`record_ptt` (first occurrence wins). -/
def dedupKeepFirst (seen : List Nat) : List Nat → List Nat
  | [] => []
  | r :: rest =>
    if r ∈ seen then dedupKeepFirst seen rest
    else r :: dedupKeepFirst (r :: seen) rest

/-- Per-device candidate rates of `record_ptt`: the device default rate
first when present, then the preferred rate, then the ladder,
de-duplicated preserving first occurrence. -/
def candidateRates (dev : AudioDevice) (preferredRate : Nat) : List Nat :=
  dedupKeepFirst []
    ((if dev.defaultSamplerate ≠ 0 then [dev.defaultSamplerate] else []) ++
      ratesList preferredRate)

/-- Per-device channel candidates of `record_ptt`: mono first, stereo only
when the device reports at least two input channels. -/
def channelCandidates (dev : AudioDevice) : List Nat :=
  [1] ++ (if dev.maxInputChannels ≥ 2 then [2] else [])

/-- Inner channel loop of `record_ptt`: first fully successful channel
wins; both open failures and mid-read failures are swallowed and the loop
continues. -/
def tryChannels (att : Nat → Nat → Nat → Attempt) (i sr : Nat) :
    List Nat → Option (Nat × Nat × Nat)
  | [] => none
  | ch :: rest =>
    if att i sr ch = Attempt.ok then some (i, sr, ch) else tryChannels att i sr rest

/-- Middle rate loop of `record_ptt`. -/
def tryRates (att : Nat → Nat → Nat → Attempt) (i : Nat) (chans : List Nat) :
    List Nat → Option (Nat × Nat × Nat)
  | [] => none
  | sr :: rest =>
    match tryChannels att i sr chans with
    | some t => some t
    | none => tryRates att i chans rest

/-- Outer device loop of `record_ptt`. -/
def tryDevices (att : Nat → Nat → Nat → Attempt) (preferredRate : Nat) :
    List (Nat × AudioDevice) → Option (Nat × Nat × Nat)
  | [] => none
  | (i, d) :: rest =>
    match tryRates att i (channelCandidates d) (candidateRates d preferredRate) with
    | some t => some t
    | none => tryDevices att preferredRate rest

/-- Model of the negotiation of `record_ptt`: the returned (device, rate,
channels) triple, `none` when no input device exists or every candidate
fails (both `RuntimeError` paths). -/
def recordPtt (devs : List AudioDevice) (preferredRate : Nat)
    (att : Nat → Nat → Nat → Attempt) : Option (Nat × Nat × Nat) :=
  tryDevices att preferredRate (inputDevices devs)

/-- Candidate rate-channel product for one device, rates outer and
channels inner as the nested loops of `record_ptt` iterate them. -/
def ratesProd (i : Nat) (chans : List Nat) : List Nat → List (Nat × Nat × Nat)
  | [] => []
  | sr :: rest => chans.map (fun ch => (i, sr, ch)) ++ ratesProd i chans rest

/-- The complete flattened candidate enumeration of `record_ptt`, in the
order the claim describes: devices in enumeration order, per device the
de-duplicated rate list, per rate the channel counts 1 then 2. -/
def candidatesList (preferredRate : Nat) : List (Nat × AudioDevice) → List (Nat × Nat × Nat)
  | [] => []
  | (i, d) :: rest =>
    ratesProd i (channelCandidates d) (candidateRates d preferredRate) ++
      candidatesList preferredRate rest

/-- Python `int()` truncation toward zero on an exact rational. -/
def pyInt (q : ℚ) : ℤ := if q < 0 then -⌊-q⌋ else ⌊q⌋

/-- Python `round()` on an exact rational: nearest integer, ties to even. -/
def pyRound (q : ℚ) : ℤ :=
  if (q - ⌊q⌋ : ℚ) < 1 / 2 then ⌊q⌋
  else if (1 / 2 : ℚ) < q - ⌊q⌋ then ⌊q⌋ + 1
  else if ⌊q⌋ % 2 = 0 then ⌊q⌋ else ⌊q⌋ + 1

/-- The frame target of a capture, `frames = int(seconds * sr)` of
`record_ptt` (and `total_samples = int(seconds * rate)` of
`record_command_16k`), with the float product modelled exactly. -/
def framesOf (seconds : ℚ) (sr : Nat) : Nat := (pyInt (seconds * sr)).toNat

/-- Block-read loop of `record_ptt`: read `min(4096, frames - idx)`
frames per iteration until `idx` reaches `frames`, truncating the final
block.  `src` is the (channel-0) sample stream; the fuel equals the frame
target, which bounds the number of iterations since every iteration
advances by at least one frame. -/
def captureBlocks (src : Nat → ℤ) : Nat → Nat → Nat → List ℤ
  | 0, _, _ => []
  | fuel + 1, idx, frames =>
    if idx < frames then
      let n := min 4096 (frames - idx)
      (List.range n).map (fun j => src (idx + j)) ++ captureBlocks src fuel (idx + n) frames
    else []

/-- The mono buffer `recorded[:, 0]` produced by a fully successful capture
of `record_ptt`. -/
def captureMono (src : Nat → ℤ) (frames : Nat) : List ℤ :=
  captureBlocks src frames 0 frames

/-- Accumulation loop of `record_command_16k`: extend the buffer with one
recorder read per iteration while it is shorter than the target.  `reads i`
is the i-th `self.recorder.read()` result; the fuel equals the target,
enough whenever every read is non-empty. -/
def fillBuf (reads : Nat → List ℤ) : Nat → Nat → List ℤ → Nat → List ℤ
  | 0, _, acc, _ => acc
  | fuel + 1, i, acc, total =>
    if acc.length < total then fillBuf reads fuel (i + 1) (acc ++ reads i) total
    else acc

/-- Model of `record_command_16k`: accumulate reads, then truncate to the
sample target (`buf[:total_samples]`). -/
def recordCommand16k (reads : Nat → List ℤ) (total : Nat) : List ℤ :=
  (fillBuf reads total 0 [] total).take total

/-- Python `" ".join(...)` on the already stripped segment texts. -/
def joinSpace : List (List Char) → List Char
  | [] => []
  | [s] => s
  | s :: rest => s ++ ' ' :: joinSpace rest

/-- Model of `STTCore.transcribe` on the segment texts the engine returned:
strip each segment, join with single spaces, strip the result. -/
def sttTranscribe (segs : List (List Char)) : List Char :=
  stripWS (joinSpace (segs.map stripWS))

/-- Spoken reply when the transcription is empty. -/
def didntCatchMsg : List Char := chars "I didn\x27t catch that."

/-- One push-to-talk turn after `record_ptt` returned the temp WAV path:
transcribe inside `try`, remove the temp file in the `finally` block (its
own failure swallowed), then either re-arm on an empty utterance or
dispatch.  Returns the ordered effect trace and the outcome: `ok true`
re-arms, `ok false` terminates, `error` propagates out of the loop. -/
def pttTurn (w : World) (wav : Nat) (tr : Except PyExc (List Char)) :
    List Effect × Except PyExc Bool :=
  match tr with
  | Except.error e => ([Effect.transcribeCall wav, Effect.removeFile wav], Except.error e)
  | Except.ok cmd =>
    if cmd = [] then
      ([Effect.transcribeCall wav, Effect.removeFile wav, Effect.speak didntCatchMsg],
       Except.ok true)
    else
      match handleCommand w cmd with
      | Except.error e =>
        ([Effect.transcribeCall wav, Effect.removeFile wav,
          Effect.printLine (chars "YOU: " ++ cmd)], Except.error e)
      | Except.ok r =>
        ([Effect.transcribeCall wav, Effect.removeFile wav,
          Effect.printLine (chars "YOU: " ++ cmd)] ++ r.effects, Except.ok r.keepGoing)

/-- One wake-word turn after the detector fired: speak the acknowledgement,
record (the WAV path), transcribe inside `try`, remove the temp file in the
`finally` block, then re-arm or dispatch as in the push-to-talk turn. -/
def wakeTurn (w : World) (wav : Nat) (tr : Except PyExc (List Char)) :
    List Effect × Except PyExc Bool :=
  let t := pttTurn w wav tr
  (Effect.speak (chars "Yes?") :: t.1, t.2)

/-- Single-device host used in concrete negotiation scenarios: one input
device whose default sample rate is 48000 Hz and which exposes one channel. -/
def exDevices : List AudioDevice := [⟨chars "mic", 48000, 1⟩]

/-- Attempt oracle for the mid-capture-failure scenario: the stream at the
first candidate rate (the 48000 Hz device default) opens but fails during
read; the stream at 44100 Hz opens and reads fully; everything else fails
to open. -/
def exAttempt : Nat → Nat → Nat → Attempt := fun _ sr _ =>
  if sr = 48000 then Attempt.readFail
  else if sr = 44100 then Attempt.ok
  else Attempt.openFail

/-- World in which appending to the notes file raises an `OSError`. -/
def noteFailWorld : World := { defaultWorld with noteWriteRaises := true }

/-- Text consisting only of whitespace characters. -/
def SpaceOnly (l : List Char) : Prop := ∀ c ∈ l, isSpaceChar c = true

theorem dropWhile_append_all {p : Char → Bool} :
    ∀ {pre : List Char} (l : List Char), (∀ c ∈ pre, p c = true) →
      (pre ++ l).dropWhile p = l.dropWhile p
  | [], _, _ => rfl
  | c :: pre, l, h => by
    have hc : p c = true := h c (List.mem_cons_self _ _)
    simp only [List.cons_append, List.dropWhile_cons, hc, if_true]
    exact dropWhile_append_all l fun d hd => h d (List.mem_cons_of_mem _ hd)

theorem dropWhile_eq_nil_of_all {p : Char → Bool} :
    ∀ {l : List Char}, (∀ c ∈ l, p c = true) → l.dropWhile p = []
  | [], _ => rfl
  | c :: l, h => by
    have hc : p c = true := h c (List.mem_cons_self _ _)
    simp only [List.dropWhile_cons, hc, if_true]
    exact dropWhile_eq_nil_of_all fun d hd => h d (List.mem_cons_of_mem _ hd)

theorem dropWhile_append_split (p : Char → Bool) :
    ∀ (l r : List Char),
      (l ++ r).dropWhile p = l.dropWhile p ++ r ∨
        (l.dropWhile p = [] ∧ (l ++ r).dropWhile p = r.dropWhile p)
  | [], r => Or.inr ⟨rfl, rfl⟩
  | c :: l, r => by
    by_cases hc : p c = true
    · simpa only [List.cons_append, List.dropWhile_cons, hc, if_true] using
        dropWhile_append_split p l r
    · simp only [List.cons_append, List.dropWhile_cons, hc]
      left
      simp

theorem stripEnd_space_right {post : List Char} (h : SpaceOnly post) (l : List Char) :
    stripEnd (l ++ post) = stripEnd l := by
  unfold stripEnd
  rw [List.reverse_append, dropWhile_append_all l.reverse]
  intro c hc
  exact h c (List.mem_reverse.mp hc)

theorem stripWS_space_left {pre : List Char} (h : SpaceOnly pre) (l : List Char) :
    stripWS (pre ++ l) = stripWS l := by
  unfold stripWS stripStart
  rw [dropWhile_append_all l h]

theorem stripWS_space_right {post : List Char} (h : SpaceOnly post) (l : List Char) :
    stripWS (l ++ post) = stripWS l := by
  unfold stripWS stripStart
  rcases dropWhile_append_split isSpaceChar l post with heq | ⟨hnil, heq⟩
  · rw [heq, stripEnd_space_right h]
  · rw [heq, hnil, dropWhile_eq_nil_of_all h]

theorem isSpaceChar_toLowerCh (c : Char) : isSpaceChar (toLowerCh c) = isSpaceChar c := by
  unfold toLowerCh
  split <;> rfl

theorem dropWhile_map_toLower :
    ∀ l : List Char, (l.map toLowerCh).dropWhile isSpaceChar =
      (l.dropWhile isSpaceChar).map toLowerCh
  | [] => rfl
  | c :: l => by
    simp only [List.map_cons, List.dropWhile_cons, isSpaceChar_toLowerCh]
    by_cases hc : isSpaceChar c = true
    · simp only [hc, if_true]
      exact dropWhile_map_toLower l
    · simp only [hc]
      simp

theorem stripWS_toLower (l : List Char) :
    stripWS (toLowerStr l) = toLowerStr (stripWS l) := by
  unfold stripWS stripStart stripEnd toLowerStr
  rw [dropWhile_map_toLower, ← List.map_reverse, dropWhile_map_toLower, ← List.map_reverse]

theorem startsWordThen_append {w post : List Char}
    (hpost : post = [] ∨ ∃ c post0, post = c :: post0 ∧ isWordChar c = false) :
    startsWordThen w (w ++ post) = true := by
  induction w with
  | nil =>
    rcases hpost with h | ⟨c, post0, h, hc⟩
    · simp [h, startsWordThen]
    · simp [h, startsWordThen, hc]
  | cons a w ih =>
    simp [startsWordThen, ih]

theorem scanAux_isSome {α : Type} {f : List Char → Option α} {suf : List Char}
    (hf : (f suf).isSome = true) (hsuf : suf ≠ []) :
    ∀ (pre : List Char) (prev : Option Char),
      ((pre = [] ∧ prevOkB prev = true) ∨
        (∃ c pre0, pre = pre0 ++ [c] ∧ isWordChar c = false)) →
      (scanAux f prev (pre ++ suf)).isSome = true := by
  intro pre
  induction pre with
  | nil =>
    intro prev hcond
    have hprev : prevOkB prev = true := by
      rcases hcond with ⟨_, h⟩ | ⟨c, pre0, h, _⟩
      · exact h
      · simp at h
    cases suf with
    | nil => exact absurd rfl hsuf
    | cons c rest =>
      simp only [List.nil_append, scanAux, hprev, if_true]
      rcases hfv : f (c :: rest) with _ | x
      · rw [hfv] at hf
        simp at hf
      · simp [hfv]
  | cons a pre ih =>
    intro prev hcond
    have hnext :
        (pre = [] ∧ prevOkB (some a) = true) ∨
          (∃ c pre0, pre = pre0 ++ [c] ∧ isWordChar c = false) := by
      rcases hcond with ⟨h, _⟩ | ⟨c, pre0, h, hc⟩
      · exact absurd h (by simp)
      · match pre0 with
        | [] =>
          simp only [List.nil_append] at h
          obtain ⟨rfl, rfl⟩ : a = c ∧ pre = [] := by
            constructor
            · exact (List.cons.injEq .. ▸ h).1
            · exact (List.cons.injEq .. ▸ h).2
          exact Or.inl ⟨rfl, by simp [prevOkB, hc]⟩
        | b :: pre0 =>
          have h1 : a = b ∧ pre = pre0 ++ [c] := by
            simpa using h
          exact Or.inr ⟨c, pre0, h1.2, hc⟩
    have := ih (some a) hnext
    simp only [List.cons_append, scanAux]
    match hg : (if prevOkB prev then f (a :: (pre ++ suf)) else none) with
    | some x => simp
    | none => exact this

theorem searchWordL_of_occurs {w s : List Char} (hw : w ≠ [])
    (h : OccursWord w s) : searchWordL w s = true := by
  obtain ⟨pre, post, rfl, hpre, hpost⟩ := h
  unfold searchWordL scanBoundary
  have hf : (wordHereOpt w (w ++ post)).isSome = true := by
    unfold wordHereOpt
    rw [startsWordThen_append hpost]
    simp
  have hsuf : w ++ post ≠ [] := by
    intro hnil
    exact hw (List.append_eq_nil.mp hnil).1
  have hcond :
      (pre = [] ∧ prevOkB none = true) ∨
        (∃ c pre0, pre = pre0 ++ [c] ∧ isWordChar c = false) := by
    rcases hpre with h | ⟨c, pre0, h, hc⟩
    · exact Or.inl ⟨h, rfl⟩
    · exact Or.inr ⟨c, pre0, h, hc⟩
  have := scanAux_isSome hf hsuf pre none hcond
  rw [List.append_assoc]
  exact this

theorem searchAny_of_occurs {w s : List Char} {ws : List (List Char)}
    (hmem : w ∈ ws) (hw : w ≠ []) (h : OccursWord w s) : searchAny ws s = true := by
  unfold searchAny
  rw [List.any_eq_true]
  exact ⟨w, hmem, searchWordL_of_occurs hw h⟩

theorem find?_append {α : Type} {p : α → Bool} :
    ∀ (l r : List α),
      (l ++ r).find? p = match l.find? p with | some x => some x | none => r.find? p
  | [], r => rfl
  | a :: l, r => by
    by_cases ha : p a = true
    · simp [List.find?, ha]
    · simp only [List.cons_append, List.find?, ha]
      simpa using find?_append l r

theorem find?_isSome_of_mem {α : Type} {p : α → Bool} {a : α} :
    ∀ {l : List α}, a ∈ l → p a = true → (l.find? p).isSome = true
  | b :: l, hmem, hp => by
    rcases List.mem_cons.mp hmem with rfl | hmem
    · simp [List.find?, hp]
    · by_cases hb : p b = true
      · simp [List.find?, hb]
      · simp only [List.find?, hb]
        exact find?_isSome_of_mem hmem hp

theorem tryChannels_eq_find (att : Nat → Nat → Nat → Attempt) (i sr : Nat) :
    ∀ chans : List Nat,
      tryChannels att i sr chans = (chans.map fun ch => (i, sr, ch)).find? (attemptOk att)
  | [] => rfl
  | ch :: rest => by
    by_cases h : att i sr ch = Attempt.ok
    · simp [tryChannels, h, List.find?, attemptOk]
    · simp only [tryChannels, h, if_false, List.map_cons, List.find?]
      have : attemptOk att (i, sr, ch) = false := by
        simp [attemptOk, h]
      rw [this]
      exact tryChannels_eq_find att i sr rest

theorem tryRates_eq_find (att : Nat → Nat → Nat → Attempt) (i : Nat) (chans : List Nat) :
    ∀ rates : List Nat,
      tryRates att i chans rates = (ratesProd i chans rates).find? (attemptOk att)
  | [] => rfl
  | sr :: rest => by
    have ih := tryRates_eq_find att i chans rest
    have hc := tryChannels_eq_find att i sr chans
    simp only [ratesProd, find?_append, ← hc, ← ih]
    cases h : tryChannels att i sr chans with
    | some t => simp [tryRates, h]
    | none => simp [tryRates, h]

theorem tryDevices_eq_find (att : Nat → Nat → Nat → Attempt) (pref : Nat) :
    ∀ ds : List (Nat × AudioDevice),
      tryDevices att pref ds = (candidatesList pref ds).find? (attemptOk att)
  | [] => rfl
  | (i, d) :: rest => by
    have ih := tryDevices_eq_find att pref rest
    have hr := tryRates_eq_find att i (channelCandidates d) (candidateRates d pref)
    simp only [candidatesList, find?_append, ← hr, ← ih]
    cases h : tryRates att i (channelCandidates d) (candidateRates d pref) with
    | some t => simp [tryDevices, h]
    | none => simp [tryDevices, h]

theorem recordPtt_eq_find (devs : List AudioDevice) (pref : Nat)
    (att : Nat → Nat → Nat → Attempt) :
    recordPtt devs pref att = (candidatesList pref (inputDevices devs)).find? (attemptOk att) :=
  tryDevices_eq_find att pref (inputDevices devs)

theorem captureBlocks_length (src : Nat → ℤ) :
    ∀ (fuel idx frames : Nat), frames - idx ≤ fuel →
      (captureBlocks src fuel idx frames).length = frames - idx
  | 0, idx, frames, h => by
    simp only [captureBlocks, List.length_nil]
    omega
  | fuel + 1, idx, frames, h => by
    simp only [captureBlocks]
    by_cases hlt : idx < frames
    · simp only [hlt, if_true, List.length_append, List.length_map, List.length_range]
      have hmin : min 4096 (frames - idx) ≤ frames - idx := Nat.min_le_right _ _
      have hpos : 1 ≤ min 4096 (frames - idx) := by
        have : 1 ≤ frames - idx := by omega
        exact le_min (by omega) this
      rw [captureBlocks_length src fuel (idx + min 4096 (frames - idx)) frames (by omega)]
      omega
    · simp only [hlt, if_false, List.length_nil]
      omega

theorem captureMono_length (src : Nat → ℤ) (frames : Nat) :
    (captureMono src frames).length = frames := by
  unfold captureMono
  rw [captureBlocks_length src frames 0 frames (by omega)]
  omega

theorem fillBuf_length (reads : Nat → List ℤ) (hr : ∀ i, reads i ≠ []) :
    ∀ (fuel i : Nat) (acc : List ℤ) (total : Nat), total ≤ acc.length + fuel →
      total ≤ (fillBuf reads fuel i acc total).length
  | 0, _, acc, total, h => by
    simpa [fillBuf] using h
  | fuel + 1, i, acc, total, h => by
    simp only [fillBuf]
    by_cases hlt : acc.length < total
    · simp only [hlt, if_true]
      have hread : 1 ≤ (reads i).length := by
        have := hr i
        cases hv : reads i with
        | nil => exact absurd hv this
        | cons a l => simp
      exact fillBuf_length reads hr fuel (i + 1) (acc ++ reads i) total
        (by simp only [List.length_append]; omega)
    · simp only [hlt, if_false]
      omega

theorem recordCommand16k_length (reads : Nat → List ℤ) (total : Nat)
    (hr : ∀ i, reads i ≠ []) : (recordCommand16k reads total).length = total := by
  unfold recordCommand16k
  rw [List.length_take]
  have := fillBuf_length reads hr total 0 [] total (by simp)
  omega

theorem dropWhile_length_le {p : Char → Bool} :
    ∀ l : List Char, (l.dropWhile p).length ≤ l.length
  | [] => le_refl _
  | c :: l => by
    by_cases hc : p c = true
    · simp only [List.dropWhile_cons, hc, if_true]
      exact le_trans (dropWhile_length_le l) (by simp)
    · simp [List.dropWhile_cons, hc]

theorem stripEnd_length_le (l : List Char) : (stripEnd l).length ≤ l.length := by
  unfold stripEnd
  rw [List.length_reverse]
  calc (l.reverse.dropWhile isSpaceChar).length ≤ l.reverse.length := dropWhile_length_le _
    _ = l.length := List.length_reverse l

theorem stripWS_spaceOnly {l : List Char} (h : SpaceOnly l) : stripWS l = [] := by
  unfold stripWS stripStart
  rw [dropWhile_eq_nil_of_all h]
  rfl

theorem head_not_space_of_stripWS_fix {s : List Char} (h : stripWS s = s) (hne : s ≠ []) :
    ∃ c t, s = c :: t ∧ isSpaceChar c = false := by
  cases s with
  | nil => exact absurd rfl hne
  | cons c t =>
    refine ⟨c, t, rfl, ?_⟩
    by_contra hcb
    have hc : isSpaceChar c = true := by simpa using hcb
    have hlen : (stripWS (c :: t)).length ≤ t.length := by
      unfold stripWS stripStart
      rw [List.dropWhile_cons, if_pos hc]
      exact le_trans (stripEnd_length_le _) (dropWhile_length_le _)
    rw [h] at hlen
    simp at hlen

theorem last_not_space_of_stripWS_fix {s : List Char} (h : stripWS s = s) (hne : s ≠ []) :
    ∃ c, s.getLast? = some c ∧ isSpaceChar c = false := by
  obtain ⟨c0, t0, hs, hc0⟩ := head_not_space_of_stripWS_fix h hne
  have hstart : stripStart s = s := by
    rw [hs]
    unfold stripStart
    rw [List.dropWhile_cons, if_neg (by simp [hc0])]
  have hend : stripEnd s = s := by
    unfold stripWS at h
    rw [hstart] at h
    exact h
  cases hr : s.reverse with
  | nil =>
    rw [List.reverse_eq_nil_iff] at hr
    exact absurd hr hne
  | cons d u =>
    refine ⟨d, ?_, ?_⟩
    · rw [← List.head?_reverse, hr]
      rfl
    · by_contra hdb
      have hd : isSpaceChar d = true := by simpa using hdb
      have hlen : (stripEnd s).length ≤ u.length := by
        unfold stripEnd
        rw [hr, List.dropWhile_cons, if_pos hd, List.length_reverse]
        exact dropWhile_length_le u
      rw [hend] at hlen
      have : s.length = u.length + 1 := by
        rw [← List.length_reverse s, hr]
        rfl
      omega

theorem stripWS_eq_self_of_ends {w : List Char} {c0 cL : Char}
    (hh : w.head? = some c0) (hc0 : isSpaceChar c0 = false)
    (hl : w.getLast? = some cL) (hcL : isSpaceChar cL = false) : stripWS w = w := by
  cases w with
  | nil => simp at hh
  | cons c t =>
    have hc : isSpaceChar c = false := by
      have he : c = c0 := by simpa using hh
      rw [he]
      exact hc0
    have hstart : stripStart (c :: t) = c :: t := by
      unfold stripStart
      rw [List.dropWhile_cons, if_neg (by simp [hc])]
    unfold stripWS
    rw [hstart]
    unfold stripEnd
    cases hr : (c :: t).reverse with
    | nil => simp at hr
    | cons d u =>
      have hd : isSpaceChar d = false := by
        have he : d = cL := by
          have := hl
          rw [← List.head?_reverse, hr] at this
          simpa using this
        rw [he]
        exact hcL
      rw [List.dropWhile_cons, if_neg (by simp [hd]), ← hr, List.reverse_reverse]

theorem getLast?_append_right {a b : List Char} (hb : b ≠ []) :
    (a ++ b).getLast? = b.getLast? := by
  rw [← List.head?_reverse, ← List.head?_reverse, List.reverse_append]
  cases hr : b.reverse with
  | nil =>
    rw [List.reverse_eq_nil_iff] at hr
    exact absurd hr hb
  | cons c t => simp

theorem joinSpace_spaceOnly : ∀ {L : List (List Char)}, (∀ s ∈ L, s = []) →
    SpaceOnly (joinSpace L)
  | [], _ => by intro c hc; simp [joinSpace] at hc
  | [s], h => by
    intro c hc
    rw [h s (by simp)] at hc
    simp [joinSpace] at hc
  | s :: r :: t, h => by
    intro c hc
    rw [h s (by simp)] at hc
    simp only [joinSpace, List.nil_append, List.mem_cons] at hc
    rcases hc with rfl | hc
    · rfl
    · exact joinSpace_spaceOnly (fun u hu => h u (List.mem_cons_of_mem _ hu)) c hc

theorem joinSpace_ne_nil {s : List Char} (rest : List (List Char)) (hs : s ≠ []) :
    joinSpace (s :: rest) ≠ [] := by
  cases rest with
  | nil => exact hs
  | cons r t =>
    show s ++ ' ' :: joinSpace (r :: t) ≠ []
    cases s with
    | nil => simp
    | cons c u => simp

theorem joinSpace_head? {s : List Char} (rest : List (List Char)) (hs : s ≠ []) :
    (joinSpace (s :: rest)).head? = s.head? := by
  cases rest with
  | nil => rfl
  | cons r t =>
    show (s ++ ' ' :: joinSpace (r :: t)).head? = s.head?
    cases s with
    | nil => exact absurd rfl hs
    | cons c u => rfl

theorem stripWS_joinSpace_fix :
    ∀ L : List (List Char), (∀ s ∈ L, s ≠ [] ∧ stripWS s = s) →
      stripWS (joinSpace L) = joinSpace L
  | [], _ => rfl
  | [s], h => (h s (by simp)).2
  | s :: r :: t, h => by
    have hs := h s (by simp)
    have hrest : ∀ u ∈ r :: t, u ≠ [] ∧ stripWS u = u :=
      fun u hu => h u (List.mem_cons_of_mem _ hu)
    have hJ : stripWS (joinSpace (r :: t)) = joinSpace (r :: t) :=
      stripWS_joinSpace_fix (r :: t) hrest
    have hJne : joinSpace (r :: t) ≠ [] := joinSpace_ne_nil t (hrest r (by simp)).1
    obtain ⟨c0, t0, hshape, hc0⟩ := head_not_space_of_stripWS_fix hs.2 hs.1
    obtain ⟨cL, hcL, hcLn⟩ := last_not_space_of_stripWS_fix hJ hJne
    have hjoin : joinSpace (s :: r :: t) = s ++ ' ' :: joinSpace (r :: t) := rfl
    rw [hjoin]
    refine stripWS_eq_self_of_ends ?_ hc0 ?_ hcLn
    · rw [hshape]
      rfl
    · rw [getLast?_append_right (by simp), ← hcL]
      show ([' '] ++ joinSpace (r :: t)).getLast? = (joinSpace (r :: t)).getLast?
      exact getLast?_append_right hJne

theorem map_stripWS_fix : ∀ {L : List (List Char)}, (∀ s ∈ L, stripWS s = s) →
    L.map stripWS = L
  | [], _ => rfl
  | s :: t, h => by
    simp only [List.map_cons, h s (by simp)]
    rw [map_stripWS_fix fun u hu => h u (List.mem_cons_of_mem _ hu)]

/-- C1: a key missing from the allowlist makes `open_app` raise the
allowlist violation (a `ValueError`) with no launch effect produced, and
dispatching the utterance "open firefox" (an unlisted key) yields only the
fallback reply — no launch effect, no success confirmation. -/
theorem claim_C1_allowlist_guard :
    (∀ (w : World) (k : List Char), lookupApp (toLowerStr (stripWS k)) = none →
      openAppRun w k =
        Except.error (PyExc.valueError (violationMsg (toLowerStr (stripWS k))))) ∧
    (∀ w : World, handleCommand w (chars "open firefox") =
      Except.ok ⟨RuleId.unrecognized, true, [Effect.speak fallbackMsg]⟩) := by
  constructor
  · intro w k h
    unfold openAppRun
    rw [h]
  · intro w
    rfl

/-- Witness for C1 at the unlisted key "firefox". -/
theorem claim_C1_allowlist_guard_witness :
    openAppRun defaultWorld (chars "firefox") =
      Except.error (PyExc.valueError (violationMsg (toLowerStr (stripWS (chars "firefox"))))) :=
  claim_C1_allowlist_guard.1 defaultWorld (chars "firefox") (by decide)

/-- C5: an utterance whose stripped, lower-cased text contains one of the
termination words as a whole word is routed to Terminate: `handle_command`
returns False and only says goodbye, regardless of surrounding text, and
ahead of every other rule since rule 1 is evaluated first. -/
theorem claim_C5_termination_priority (w : World) (t word : List Char)
    (hmem : word ∈ terminationWords)
    (hocc : OccursWord word (toLowerStr (stripWS t))) :
    handleCommand w t =
      Except.ok ⟨RuleId.terminate, false, [Effect.speak (chars "Goodbye.")]⟩ := by
  have hword : word ≠ [] := by
    have hm : word = chars "quit" ∨ word = chars "exit" ∨
        word = chars "stop assistant" ∨ word = chars "goodbye" := by
      simpa [terminationWords] using hmem
    rcases hm with rfl | rfl | rfl | rfl <;> decide
  have hsearch := searchAny_of_occurs hmem hword hocc
  unfold handleCommand handleLow
  rw [hsearch]
  rfl

/-- Witness for C5 on the case-varied utterance "Please EXIT now". -/
theorem claim_C5_termination_priority_witness :
    handleCommand defaultWorld (chars "Please EXIT now") =
      Except.ok ⟨RuleId.terminate, false, [Effect.speak (chars "Goodbye.")]⟩ :=
  claim_C5_termination_priority defaultWorld (chars "Please EXIT now") (chars "exit")
    (by decide)
    ⟨chars "please ", chars " now", by decide,
     Or.inr ⟨' ', chars "please", by decide, by decide⟩,
     Or.inr ⟨' ', chars "now", by decide, by decide⟩⟩

/-- C6: when the normalised utterance contains "time" as a standalone whole
word and neither of the two earlier rules (termination, help) fires, the
router answers with the time; and an utterance whose only occurrence of
"time" is inside the word "timer" does not trigger the time rule (here
"set a timer" falls through to the unrecognized fallback). -/
theorem claim_C6_time_rule :
    (∀ (w : World) (t : List Char),
      OccursWord (chars "time") (toLowerStr (stripWS t)) →
      searchAny terminationWords (toLowerStr (stripWS t)) = false →
      searchAny helpWords (toLowerStr (stripWS t)) = false →
      handleCommand w t = Except.ok ⟨RuleId.time, true,
        [Effect.speak (chars "The time is " ++ w.timeStr)]⟩) ∧
    (∀ w : World, handleCommand w (chars "set a timer") =
      Except.ok ⟨RuleId.unrecognized, true, [Effect.speak fallbackMsg]⟩) := by
  constructor
  · intro w t hocc hterm hhelp
    have htime : searchWordL (chars "time") (toLowerStr (stripWS t)) = true :=
      searchWordL_of_occurs (by decide) hocc
    unfold handleCommand handleLow
    rw [hterm, hhelp, htime]
    rfl
  · intro w
    rfl

/-- Witness for C6 on "What time is it". -/
theorem claim_C6_time_rule_witness :
    handleCommand defaultWorld (chars "What time is it") =
      Except.ok ⟨RuleId.time, true,
        [Effect.speak (chars "The time is " ++ defaultWorld.timeStr)]⟩ :=
  claim_C6_time_rule.1 defaultWorld (chars "What time is it")
    ⟨chars "what ", chars " is it", by decide,
     Or.inr ⟨' ', chars "what", by decide, by decide⟩,
     Or.inr ⟨' ', chars "is it", by decide, by decide⟩⟩
    (by decide) (by decide)

/-- C8 counterexample: with a failing notes file, dispatching
"note buy milk" lets the `OSError` of `save_note` escape `handle_command`
into the session loop — the executor boundary does not contain file-write
failures, contrary to the claim. -/
theorem claim_C8_counterexample :
    handleCommand noteFailWorld (chars "note buy milk") =
      Except.error (PyExc.osError (chars "write failed")) := rfl

/-- C8 amended: unknown app keys and launch failures are caught inside the
dispatcher and converted into a spoken error message (shown here for a
failing launcher on "open chrome"), and with a healthy notes file no
dispatch ever throws; but a file-write failure during SaveNote is not
caught and propagates to the session loop. -/
theorem claim_C8_amended :
    (∀ (w : World) (t : List Char), w.noteWriteRaises = false →
      ∃ r, handleCommand w t = Except.ok r) ∧
    (∀ w : World, w.launchRaises = true →
      handleCommand w (chars "open chrome") = Except.ok ⟨RuleId.openApp, true,
        [Effect.speak (chars "I couldn\x27t open chrome. launch failed")]⟩) := by
  constructor
  · intro w t h
    unfold handleCommand handleLow rule5Onwards rule6Onwards rule7Onwards rule8Onwards
    repeat' split
    all_goals first
      | exact ⟨_, rfl⟩
      | simp_all [saveNoteRun]
  · intro w h
    have hred : handleCommand w (chars "open chrome") =
        (match openAppRun w (chars "chrome") with
         | Except.ok effs => Except.ok (⟨RuleId.openApp, true,
             effs ++ [Effect.speak (chars "Opening chrome.")]⟩ : CmdResult)
         | Except.error e => Except.ok ⟨RuleId.openApp, true,
             [Effect.speak (chars "I couldn\x27t open chrome. " ++ errText e)]⟩) := rfl
    have hrun : openAppRun w (chars "chrome") =
        Except.error (PyExc.osError (chars "launch failed")) := by
      unfold openAppRun
      have hl : lookupApp (toLowerStr (stripWS (chars "chrome"))) =
          some ⟨chars "chrome", chars "Google Chrome", chars "google-chrome"⟩ := rfl
      rw [hl, h]
      rfl
    rw [hred, hrun]
    rfl

/-- Witness for C8: both amended parts at concrete inputs. -/
theorem claim_C8_amended_witness :
    (∃ r, handleCommand defaultWorld (chars "note buy milk") = Except.ok r) ∧
    handleCommand { defaultWorld with launchRaises := true } (chars "open chrome") =
      Except.ok ⟨RuleId.openApp, true,
        [Effect.speak (chars "I couldn\x27t open chrome. launch failed")]⟩ :=
  ⟨claim_C8_amended.1 defaultWorld (chars "note buy milk") rfl,
   claim_C8_amended.2 { defaultWorld with launchRaises := true } rfl⟩

/-- C10: routing is invariant under letter case and leading or trailing
whitespace of the raw text, because `handle_command` strips and
lower-cases its input before evaluating any pattern: padding with
whitespace and changing letter case never changes the selected rule, the
effects, or the continue/terminate result. -/
theorem claim_C10_normalisation_invariance (w : World) (t tv pre post : List Char)
    (hpre : SpaceOnly pre) (hpost : SpaceOnly post)
    (hlow : toLowerStr tv = toLowerStr t) :
    handleCommand w (pre ++ tv ++ post) = handleCommand w t := by
  unfold handleCommand
  have hnorm : toLowerStr (stripWS (pre ++ tv ++ post)) = toLowerStr (stripWS t) := by
    rw [List.append_assoc, stripWS_space_left hpre, stripWS_space_right hpost,
      ← stripWS_toLower, hlow, stripWS_toLower]
  rw [hnorm]

/-- Witness for C10: a padded, case-varied "open chrome" routes exactly as
the original. -/
theorem claim_C10_normalisation_invariance_witness :
    handleCommand defaultWorld (chars "  " ++ chars "OPEN chrome" ++ chars " ") =
      handleCommand defaultWorld (chars "Open Chrome") :=
  claim_C10_normalisation_invariance defaultWorld (chars "Open Chrome")
    (chars "OPEN chrome") (chars "  ") (chars " ")
    (by unfold SpaceOnly; decide) (by unfold SpaceOnly; decide) (by decide)

/-- C2: the negotiation of `record_ptt` equals a first-success search over
the flattened candidate enumeration: input-capable devices in enumeration
order; for each device the candidate rates in order (device default rate
first, then the preferred rate, then the fixed ladder 44100, 48000,
32000, 24000, 22050, 16000, de-duplicated preserving first occurrence);
for each rate channel counts 1 then 2 (2 only when the device supports at
least 2); the first triple whose stream open and read fully succeed is
returned, and `List.find?` semantics mean no later candidate is consulted. -/
theorem claim_C2_negotiation_order (devs : List AudioDevice) (pref : Nat)
    (att : Nat → Nat → Nat → Attempt) :
    recordPtt devs pref att =
      (candidatesList pref (inputDevices devs)).find? (attemptOk att) :=
  recordPtt_eq_find devs pref att

/-- C3 counterexample: on a host whose only device read-fails mid-capture
at its first candidate (48000 Hz, the device default) and fully succeeds
at the next (44100 Hz), `record_ptt` swallows the read failure and returns
the later candidate — the mid-capture failure neither propagates as an
error nor stops the candidate search, contrary to the claim. -/
theorem claim_C3_counterexample :
    exAttempt 0 48000 1 = Attempt.readFail ∧
      recordPtt exDevices 0 exAttempt = some (0, 44100, 1) := ⟨rfl, rfl⟩

/-- C3 amended: a read failure after a successful stream open is swallowed
by the same handler as an open failure: the search automatically continues
with the remaining device/rate/channel candidates, and whenever any
candidate fully succeeds the negotiation returns it instead of propagating
the earlier read error; only exhaustion of every candidate raises. -/
theorem claim_C3_amended (devs : List AudioDevice) (pref : Nat)
    (att : Nat → Nat → Nat → Attempt) (t : Nat × Nat × Nat)
    (hmem : t ∈ candidatesList pref (inputDevices devs))
    (hok : att t.1 t.2.1 t.2.2 = Attempt.ok) :
    (recordPtt devs pref att).isSome = true := by
  rw [recordPtt_eq_find]
  exact find?_isSome_of_mem hmem (by simp [attemptOk, hok])

/-- Witness for C3 amended at the concrete read-failure scenario. -/
theorem claim_C3_amended_witness : (recordPtt exDevices 0 exAttempt).isSome = true :=
  claim_C3_amended exDevices 0 exAttempt (0, 44100, 1) (by decide) (by decide)

/-- C4 counterexample: at duration 0.75 s and rate 22050 Hz (both exactly
representable in binary floating point, so the rational model is exact)
the capture target is `int(0.75 * 22050) = 16537` samples and the mono
buffer has 16537 samples, while `round(0.75 * 22050) = 16538`: the buffer
length is the truncation of duration times rate, not its rounding. -/
theorem claim_C4_counterexample :
    (captureMono (fun _ => 0) (framesOf (3 / 4 : ℚ) 22050)).length = 16537 ∧
      pyRound ((3 / 4 : ℚ) * 22050) = 16538 := by
  constructor
  · rw [captureMono_length]
    unfold framesOf pyInt
    norm_num
    rfl
  · unfold pyRound
    norm_num

/-- C4 amended: every fully successful capture returns a mono buffer of
exactly `int(duration * sample_rate)` samples — truncation toward zero,
which agrees with `round` whenever the product is integral — with the
final read block truncated as needed; in particular 2.0 s at 16000 Hz
yields exactly 32000 samples, in both the push-to-talk block loop and the
wake-mode accumulation loop (whose reads must be non-empty). -/
theorem claim_C4_amended :
    (∀ (src : Nat → ℤ) (seconds : ℚ) (sr : Nat),
      (captureMono src (framesOf seconds sr)).length = framesOf seconds sr) ∧
    (∀ src : Nat → ℤ, (captureMono src (framesOf 2 16000)).length = 32000) ∧
    (∀ (reads : Nat → List ℤ) (total : Nat), (∀ i, reads i ≠ []) →
      (recordCommand16k reads total).length = total) := by
  refine ⟨fun src seconds sr => captureMono_length src _, fun src => ?_,
    fun reads total hr => recordCommand16k_length reads total hr⟩
  rw [captureMono_length]
  unfold framesOf pyInt
  norm_num
  rfl

/-- Witness for C4 amended: the wake-mode loop with one-sample reads
reaches a five-sample target exactly. -/
theorem claim_C4_amended_witness : (recordCommand16k (fun _ => [0]) 5).length = 5 :=
  claim_C4_amended.2.2 (fun _ => [0]) 5 (fun _ => by simp)

/-- C7 counterexample: `transcribe` preserves the letter case the engine
produced — on the single segment "Hello" it returns "Hello", which is not
lower-case-normalised, contrary to the claim that the resulting utterance
is lower-cased. -/
theorem claim_C7_counterexample :
    sttTranscribe [chars "Hello"] = chars "Hello" ∧
      toLowerStr (sttTranscribe [chars "Hello"]) ≠ sttTranscribe [chars "Hello"] := by
  exact ⟨rfl, by decide⟩

/-- C7 amended: `transcribe` strips each segment text, joins them in
order with single spaces and strips the result, so a whitespace-only
engine result maps to the distinguished empty utterance and pre-stripped
non-empty segments are returned joined verbatim; the result keeps the
engine letter case — lower-casing happens later, inside the router. -/
theorem claim_C7_amended :
    (∀ segs : List (List Char), (∀ s ∈ segs, stripWS s = []) →
      sttTranscribe segs = []) ∧
    (∀ segs : List (List Char), (∀ s ∈ segs, s ≠ [] ∧ stripWS s = s) →
      sttTranscribe segs = joinSpace segs) := by
  constructor
  · intro segs h
    unfold sttTranscribe
    apply stripWS_spaceOnly
    apply joinSpace_spaceOnly
    intro u hu
    obtain ⟨s, hs, rfl⟩ := List.mem_map.mp hu
    exact h s hs
  · intro segs h
    unfold sttTranscribe
    rw [map_stripWS_fix fun s hs => (h s hs).2]
    exact stripWS_joinSpace_fix segs h

/-- Witness for C7 amended on two concrete segments. -/
theorem claim_C7_amended_witness :
    sttTranscribe [chars "hello", chars "world"] = chars "hello world" :=
  (claim_C7_amended.2 [chars "hello", chars "world"] (by decide)).trans rfl

/-- C9: in every execution path of both session modes the temporary WAV
file handed to the transcriber is removed directly after the transcription
call returns or raises — the first two effects of a push-to-talk turn
(respectively the three leading effects of a wake turn) are always the
transcription call followed immediately by the file removal, before the
outcome is handled any further. -/
theorem claim_C9_temp_wav_cleanup (w : World) (wav : Nat)
    (tr : Except PyExc (List Char)) :
    (pttTurn w wav tr).1.take 2 = [Effect.transcribeCall wav, Effect.removeFile wav] ∧
    (wakeTurn w wav tr).1.take 3 =
      [Effect.speak (chars "Yes?"), Effect.transcribeCall wav, Effect.removeFile wav] := by
  cases tr with
  | error e => exact ⟨rfl, rfl⟩
  | ok cmd =>
    by_cases hc : cmd = []
    · subst hc
      exact ⟨rfl, rfl⟩
    · unfold wakeTurn pttTurn
      simp only [hc, if_false]
      cases handleCommand w cmd <;> exact ⟨rfl, rfl⟩

end Porcupine
